import Mathlib

/-!
Verification of example/object-detection: custom losses (`block/loss.py`)
and the mini-batch data loader (`dataset/dataloader.py`).

The Python code is shallowly embedded: pure tensor formulas become functions
over `ℝ` (per element / per position along the class axis), collation becomes
functions over `List`, and fallible construction becomes `Except String`.
-/

namespace ObjDet

/-! ## `dataset/dataloader.py`: `DataLoader.__init__`

The constructor takes `dataset, batch_size=None, shuffle=False, sampler=None,
last_batch=None, batch_sampler=None` and either raises `ValueError` or stores a
batch sampler (a given one, or one built from an index sampler, the batch size
and a last-batch policy).  Optional Python arguments are `Option`s; `shuffle`
is a `Bool`.  The string code applies Python truthiness to `last_batch`
(`last_batch if last_batch else 'keep'`). -/

/-- An index sampler: either one built inside `__init__`
(`RandomSampler`/`SequentialSampler` over `len(dataset)`) or one supplied by
the caller. -/
inductive SamplerSpec where
  | random : Nat → SamplerSpec
  | sequential : Nat → SamplerSpec
  | user : Nat → SamplerSpec
  deriving Repr, DecidableEq

/-- The batch sampler stored by a successfully constructed `DataLoader`:
either the caller's `batch_sampler`, or a `BatchSampler(sampler, batch_size,
policy)` built from the other arguments. -/
inductive BatchSamplerSpec where
  | given : Nat → BatchSamplerSpec
  | built : SamplerSpec → Nat → String → BatchSamplerSpec
  deriving Repr, DecidableEq

/-- Arguments of `DataLoader.__init__` (after `dataset`, kept as its length). -/
structure DataLoaderArgs where
  datasetLen : Nat
  batchSize : Option Nat
  shuffle : Bool
  sampler : Option SamplerSpec
  lastBatch : Option String
  batchSampler : Option Nat
  deriving Repr, DecidableEq

/-- `last_batch if last_batch else 'keep'`: Python truthiness on the string
argument (both `None` and the empty string are falsy). -/
def lastBatchPolicy (lastBatch : Option String) : String :=
  match lastBatch with
  | none => "keep"
  | some s => if s = "" then "keep" else s

/-- `DataLoader.__init__`, following the source's branch structure exactly:
with no `batch_sampler`, a missing `batch_size` raises; a default sampler is
built from `shuffle` when none is given, while `shuffle` together with a given
sampler raises; with a `batch_sampler`, any of the four other arguments
raises. -/
def dataLoaderInit (a : DataLoaderArgs) : Except String BatchSamplerSpec :=
  match a.batchSampler with
  | none =>
    match a.batchSize with
    | none => .error "batch_size must be specified unless batch_sampler is specified"
    | some bs =>
      match a.sampler with
      | none =>
        let s := if a.shuffle then SamplerSpec.random a.datasetLen
                 else SamplerSpec.sequential a.datasetLen
        .ok (.built s bs (lastBatchPolicy a.lastBatch))
      | some s =>
        if a.shuffle then
          .error "shuffle must not be specified if sampler is specified"
        else
          .ok (.built s bs (lastBatchPolicy a.lastBatch))
  | some bsamp =>
    if a.batchSize.isSome || a.shuffle || a.sampler.isSome || a.lastBatch.isSome then
      .error "batch_size, shuffle, sampler and last_batch must not be specified if batch_sampler is specified."
    else
      .ok (.given bsamp)

/-- `dataLoaderInit` raised a `ValueError`. -/
def initRaises (a : DataLoaderArgs) : Prop :=
  ∃ m, dataLoaderInit a = .error m

/-! ## `block/loss.py` as a Python module: top-level execution

Executing the module runs its statements in order; each statement either binds
a top-level name or, for a `class C(Base)` statement, first resolves the base
expression's root name in the module environment (raising `NameError` when it
is unbound) and then binds the class name.  `SigmoidBCELoss =
SigmoidBinaryCrossEntropyLoss` is an assignment whose right-hand side is a
name, resolved the same way. -/

/-- A top-level statement of the module, as far as name binding and name
resolution go: `bindName` covers `import`/`def` statements (they only bind),
`classDef c b` is `class c(b):` (resolves root of `b`, then binds `c`), and
`assignName x y` is `x = y`. -/
inductive PyStmt where
  | bindName : String → PyStmt
  | classDef : String → String → PyStmt
  | assignName : String → String → PyStmt
  deriving Repr, DecidableEq

/-- The root name of a dotted expression such as `loss.Loss` (attribute access
only needs the root to be bound for name resolution to succeed). -/
def rootName (s : String) : String :=
  String.mk (s.data.takeWhile (fun c => c ≠ '.'))

/-- Run the module's statements in order over an environment of bound names,
stopping with a `NameError` at the first unresolvable name. -/
def runModule : List PyStmt → List String → Except String (List String)
  | [], env => .ok env
  | .bindName n :: rest, env => runModule rest (n :: env)
  | .classDef c b :: rest, env =>
    if rootName b ∈ env then runModule rest (c :: env)
    else .error ("NameError: name " ++ rootName b ++ " is not defined")
  | .assignName x y :: rest, env =>
    if rootName y ∈ env then runModule rest (x :: env)
    else .error ("NameError: name " ++ rootName y ++ " is not defined")

/-- The top-level statements of `block/loss.py`, in source order:
the imports, `def find_inf`, the four class definitions with their base-class
expressions, and the `SigmoidBCELoss` alias assignment. -/
def lossModule : List PyStmt :=
  [ .bindName "loss",
    .bindName "_reshape_like",
    .bindName "_apply_weighting",
    .bindName "np",
    .bindName "find_inf",
    .classDef "SmoothL1Loss" "loss.Loss",
    .classDef "SigmoidBinaryCrossEntropyLoss" "Loss",
    .assignName "SigmoidBCELoss" "SigmoidBinaryCrossEntropyLoss",
    .classDef "SoftmaxCrossEntropyLoss" "Loss",
    .classDef "FocalLoss" "loss.Loss" ]

/-- Loading `block/loss.py` = running its statements over an empty module
environment. -/
def loadLossModule : Except String (List String) :=
  runModule lossModule []

/-! ## `dataset/dataloader.py`: `_batchify`

`_batchify(data)` dispatches on the type of `data[0]`: NDArray records are
stacked (`nd.stack(*data)`), tuple records are transposed with `zip(*data)`
and each field-list collated recursively into a Python list, and anything else
is treated as a group of plain 2-d numeric arrays padded with `-1` to the
longest first dimension.  Records are the `PyRec` tree; the NDArray / plain
array payloads are kept as nested `List Int` (leading-axis slices / rows).
Type errors of the Python code (mixed groups, rows not matching the buffer
width so that `buf[i][:l.shape[0], :] = l` raises) are `none`; the recursion
through `zip(*data)` is driven by a fuel parameter that bounds the tuple
nesting depth, `none` when exhausted. -/

/-- A dataset record as `_batchify` sees it: an `nd.NDArray` (its slices along
the leading axis), a tuple of fields, or a plain 2-d numeric array (a list of
rows). -/
inductive PyRec where
  | nd : List (List Int) → PyRec
  | tup : List PyRec → PyRec
  | raw : List (List Int) → PyRec
  deriving Repr

/-- A collated batch: an NDArray with its leading-axis slices (result of
`nd.stack` or `nd.array(buf)`), or the Python list built in the tuple case. -/
inductive Batched where
  | ndarr : List (List (List Int)) → Batched
  | pyList : List Batched → Batched
  deriving Repr

/-- Python `len()` of a `_batchify` result: the leading dimension of an
NDArray, or the length of the list of batched fields. -/
def pyLen : Batched → Nat
  | .ndarr l => l.length
  | .pyList l => l.length

/-- All-or-nothing traversal of a group (a non-`some` element is a Python
error raised by the branch's op). -/
def mapO {α β : Type} (f : α → Option β) : List α → Option (List β)
  | [] => some []
  | x :: xs => do pure ((← f x) :: (← mapO f xs))

/-- `zip(*fss)` truncates at the shortest argument. -/
def minLen (fss : List (List PyRec)) : Nat :=
  match fss with
  | [] => 0
  | f :: rest => rest.foldl (fun m l => Nat.min m l.length) f.length

/-- Column `j` of `zip(*fss)`. -/
def colAt (fss : List (List PyRec)) (j : Nat) : List PyRec :=
  fss.map (fun l => l.getD j (.tup []))

/-- `zip(*fss)`: the list of columns, one per common index. -/
def zipStar (fss : List (List PyRec)) : List (List PyRec) :=
  (List.range (minLen fss)).map (colAt fss)

/-- `max([l.shape[0] for l in data])`. -/
def padLen (arrs : List (List (List Int))) : Nat :=
  (arrs.map List.length).foldr Nat.max 0

/-- `data[0].shape[-1]`: the trailing width the buffer is allocated with. -/
def bufWidth (arrs : List (List (List Int))) : Nat :=
  ((arrs.headD []).headD []).length

/-- The padding branch: `buf = np.full((batch_size, pad, data[0].shape[-1]),
-1, dtype=...)` followed by `buf[i][:l.shape[0], :] = l`.  The slice
assignment requires every row of `l` to have exactly the buffer width
`data[0].shape[-1]` (otherwise numpy raises, modelled as `none`); each padded
slice is then the record's rows followed by all-`-1` rows up to `pad`. -/
def padGroup (arrs : List (List (List Int))) : Option (List (List (List Int))) :=
  if arrs.all (fun l => l.all (fun row => row.length = bufWidth arrs)) then
    some (arrs.map (fun l =>
      l ++ List.replicate (padLen arrs - l.length) (List.replicate (bufWidth arrs) (-1))))
  else none

/-- `isinstance(data[0], nd.NDArray)` dispatch payload. -/
def recNd : PyRec → Option (List (List Int))
  | .nd a => some a
  | _ => none

/-- `isinstance(data[0], tuple)` dispatch payload. -/
def recFields : PyRec → Option (List PyRec)
  | .tup fs => some fs
  | _ => none

/-- The fallthrough payload: a plain 2-d numeric array. -/
def recRaw : PyRec → Option (List (List Int))
  | .raw a => some a
  | _ => none

/-- `_batchify`, dispatching on the head record as the source dispatches on
`data[0]`; an empty group indexes `data[0]` out of range (`none`). -/
def batchify : Nat → List PyRec → Option Batched
  | 0, _ => none
  | _ + 1, [] => none
  | fuel + 1, r :: rest =>
    match r with
    | .nd _ => (mapO recNd (r :: rest)).map .ndarr
    | .tup _ => do
      let fss ← mapO recFields (r :: rest)
      let bs ← mapO (batchify fuel) (zipStar fss)
      pure (.pyList bs)
    | .raw _ => do
      let arrs ← mapO recRaw (r :: rest)
      let buf ← padGroup arrs
      pure (.ndarr buf)

/-- The head record is a Python tuple. -/
def isTupRec : PyRec → Bool
  | .tup _ => true
  | _ => false

/-- Concrete group for the C7 example: label arrays of lengths `[2, 5, 3]`
and width 2. -/
def rsC7 : List (List (List Int)) :=
  [ [[11, 12], [13, 14]],
    [[1, 2], [3, 4], [5, 6], [7, 8], [9, 10]],
    [[21, 22], [23, 24], [25, 26]] ]

/-- Concrete group of three 2-field tuple records (image-like field,
label-like field). -/
def recsTup3 : List PyRec :=
  [ .tup [.raw [[1]], .raw [[2]]],
    .tup [.raw [[3]], .raw [[4]]],
    .tup [.raw [[5]], .raw [[6]]] ]

/-- What `_batchify` returns on `recsTup3`: a Python list with one batched
array per tuple field. -/
def resTup3 : Batched :=
  .pyList [.ndarr [[[1]], [[3]], [[5]]], .ndarr [[[2]], [[4]], [[6]]]]

/-! ## `block/loss.py`: the loss formulas

The tensor formulas are embedded elementwise / per position over `ℝ`:
a "position" of the sparse softmax cross-entropy carries its class vector
(the `axis` dimension) as a `List ℝ`, every other loss is a pointwise formula
in the scalars that the broadcasted tensor ops combine. -/

noncomputable section

/-- `FocalLoss.__init__`'s validation: `sparse_label and (not
isinstance(num_class, int) or (num_class < 1))` raises `ValueError`;
`num_class` is `none` for `None` (or any non-integer), `some n` for the
integer `n`. -/
def focalInit (sparseLabel : Bool) (numClass : Option Int) : Except String Unit :=
  if sparseLabel && (match numClass with | none => true | some n => decide (n < 1)) then
    .error "Number of class > 0 must be provided if sparse label is used."
  else .ok ()

/-- `F.log_softmax(pred, axis)` at class index `j` of one position's class
vector. -/
def logSoftmaxAt (pred : List ℝ) (j : Nat) : ℝ :=
  pred.getD j 0 - Real.log ((pred.map Real.exp).sum)

/-- `F.pick`'s index handling (default `mode='clip'`): the label value is
clipped into `[0, n-1]`. -/
def clipIdx (n : Nat) (label : Int) : Nat :=
  (min (max label 0) ((n : Int) - 1)).toNat

/-- Per-position loss of `SoftmaxCrossEntropyLoss.hybrid_forward` with
`sparse_label=True`, before `_apply_weighting` and the batch-axis mean:
unless `from_logits`, `pred` is sent through `log_softmax`; `F.pick` selects
the entry at the (clipped) label index, negated; the `F.where` then zeroes the
position when its label equals `ignore_label`. -/
def softmaxCEPos (fromLogits : Bool) (ignoreLabel : Int) (pred : List ℝ)
    (label : Int) : ℝ :=
  let lp := if fromLogits then pred else (List.range pred.length).map (logSoftmaxAt pred)
  let picked := -(lp.getD (clipIdx lp.length label) 0)
  if label = ignoreLabel then 0 else picked

/-- `F.sigmoid`. -/
def sigmoidR (x : ℝ) : ℝ := 1 / (1 + Real.exp (-x))

/-- `SigmoidBinaryCrossEntropyLoss.hybrid_forward` per element with
`from_sigmoid=False`: `pred - pred*label + max_val + log(exp(-max_val) +
exp(-pred-max_val))` with `max_val = relu(-pred)`. -/
def bceFromLogits (x y : ℝ) : ℝ :=
  x - x * y + max (-x) 0 +
    Real.log (Real.exp (-(max (-x) 0)) + Real.exp (-x - max (-x) 0))

/-- `SigmoidBinaryCrossEntropyLoss.hybrid_forward` per element with
`from_sigmoid=True`: `-(log(pred+1e-12)*label + log(1-pred+1e-12)*(1-label))`. -/
def bceFromSigmoid (p y : ℝ) : ℝ :=
  -(Real.log (p + 1e-12) * y + Real.log (1 - p + 1e-12) * (1 - y))

/-- `FocalLoss.hybrid_forward` per element, before `_apply_weighting` and the
batch-axis mean: the raw output is sent through `sigmoid` unless
`from_logits`; `o` is this element's one-hot indicator (`F.one_hot` for sparse
labels, `label > 0` otherwise), so `pt = where(o, p, 1-p)`, `alpha_t =
where(o, alpha*1, (1-alpha)*1)`, and the loss is
`-alpha_t * (1-pt)^gamma * log(min(pt + eps, 1))`. -/
def focalElem (alpha gamma eps : ℝ) (fromLogits : Bool) (o : Bool) (x : ℝ) : ℝ :=
  let p := if fromLogits then x else sigmoidR x
  let pt := if o then p else 1 - p
  let alphaT := (if o then alpha * 1 else (1 - alpha) * 1)
  (-alphaT) * (1 - pt) ^ gamma * Real.log (min (pt + eps) 1)

/-- Modelled from the spec: the framework operator `F.smooth_l1(x,
scalar=sigma)` used by `SmoothL1Loss.hybrid_forward` (its implementation
lives in the tensor library, outside `src/`).  Per the spec it is "quadratic
near zero, linear for large residuals — tie-break at the point where
derivative continuity is enforced exactly at residual = 1/sigma": the
quadratic branch `sigma/2 * r^2` and the unit-slope linear branch
`|r| - 1/(2*sigma)` meet at `|r| = 1/sigma` with equal value and slope. -/
def smoothL1 (sigma r : ℝ) : ℝ :=
  if |r| ≤ 1 / sigma then sigma / 2 * r ^ 2 else |r| - 1 / (2 * sigma)

/-- `SmoothL1Loss.hybrid_forward` per element, before weighting and the
batch-axis mean: `F.smooth_l1(pred - label, scalar=self._sigma)`. -/
def smoothL1Elem (sigma pred label : ℝ) : ℝ :=
  smoothL1 sigma (pred - label)

end

end ObjDet

namespace ObjDet

theorem mapO_length {α β : Type} (f : α → Option β) (l : List α) (l' : List β)
    (h : mapO f l = some l') : l'.length = l.length := by
  induction l generalizing l' with
  | nil =>
    simp only [mapO] at h
    cases h
    rfl
  | cons x xs ih =>
    simp only [mapO, Option.pure_def, Option.bind_eq_bind] at h
    cases hx : f x with
    | none => rw [hx] at h; simp at h
    | some y =>
      rw [hx] at h
      cases hxs : mapO f xs with
      | none => rw [hxs] at h; simp at h
      | some ys =>
        rw [hxs] at h
        simp only [Option.some_bind, Option.some.injEq] at h
        subst h
        simp [ih ys hxs]

theorem mapO_map {α β : Type} (f : β → Option α) (g : α → β)
    (hfg : ∀ x, f (g x) = some x) (l : List α) : mapO f (l.map g) = some l := by
  induction l with
  | nil => rfl
  | cons x xs ih => simp [mapO, hfg, ih]

theorem length_le_padLen (arrs : List (List (List Int))) (l : List (List Int))
    (hl : l ∈ arrs) : l.length ≤ padLen arrs := by
  induction arrs with
  | nil => cases hl
  | cons a rest ih =>
    have hcons : padLen (a :: rest) = max a.length (padLen rest) := rfl
    rcases List.mem_cons.mp hl with h | h
    · rw [h, hcons]; exact le_max_left _ _
    · rw [hcons]; exact (ih h).trans (le_max_right _ _)

theorem padGroup_rect (arrs : List (List (List Int))) (w : Nat)
    (h0 : bufWidth arrs = w)
    (hrect : ∀ l ∈ arrs, ∀ row ∈ l, row.length = w) :
    padGroup arrs = some (arrs.map (fun l =>
      l ++ List.replicate (padLen arrs - l.length) (List.replicate w (-1)))) := by
  unfold padGroup
  rw [h0, if_pos]
  simp only [List.all_eq_true, decide_eq_true_eq]
  exact hrect

/-- C2: `DataLoader` construction raises exactly when the arguments are
inconsistent: a `batch_sampler` together with any of `batch_size`,
`shuffle=True`, `sampler` or `last_batch`; no `batch_sampler` and no
`batch_size`; or both `shuffle=True` and an explicit `sampler`.  The model of
`__init__` returns `Except`, so the error is decided at construction: in all
other cases construction succeeds. -/
theorem dataLoaderInit_error_iff (a : DataLoaderArgs) :
    initRaises a ↔
      (a.batchSampler.isSome ∧
        (a.batchSize.isSome ∨ a.shuffle = true ∨ a.sampler.isSome ∨ a.lastBatch.isSome)) ∨
      (a.batchSampler = none ∧ a.batchSize = none) ∨
      (a.shuffle = true ∧ a.sampler.isSome) := by
  obtain ⟨n, bs, sh, sp, lb, bsamp⟩ := a
  cases bsamp <;> cases bs <;> cases sp <;> cases sh <;> cases lb <;>
    simp [initRaises, dataLoaderInit, lastBatchPolicy]

/-- C10: constructed without a `batch_sampler` and with `last_batch`
unspecified, the loader's batch sampler uses the `'keep'` policy. -/
theorem dataLoaderInit_default_keep (a : DataLoaderArgs)
    (hbs : a.batchSampler = none) (hlb : a.lastBatch = none)
    (s : SamplerSpec) (k : Nat) (p : String)
    (h : dataLoaderInit a = .ok (.built s k p)) : p = "keep" := by
  obtain ⟨n, bs, sh, sp, lb, bsamp⟩ := a
  cases hbs; cases hlb
  cases bs with
  | none => simp [dataLoaderInit] at h
  | some k0 =>
    cases sp with
    | none =>
      cases sh <;> · simp [dataLoaderInit, lastBatchPolicy] at h; exact h.2.2.symm
    | some s0 =>
      cases sh with
      | false => simp [dataLoaderInit, lastBatchPolicy] at h; exact h.2.2.symm
      | true => simp [dataLoaderInit] at h

/-- Witness for C10 at a concrete input: dataset of 10 records,
`batch_size=3`, everything else defaulted. -/
theorem dataLoaderInit_default_keep_witness :
    (⟨10, some 3, false, none, none, none⟩ : DataLoaderArgs).batchSampler = none ∧
    dataLoaderInit ⟨10, some 3, false, none, none, none⟩ =
      .ok (.built (.sequential 10) 3 "keep") ∧
    "keep" = "keep" := by
  refine ⟨rfl, rfl, ?_⟩
  exact dataLoaderInit_default_keep ⟨10, some 3, false, none, none, none⟩
    rfl rfl (.sequential 10) 3 "keep" rfl

/-- C3: loading `block/loss.py` raises a `NameError` for the unbound base
class `Loss` at the `SigmoidBinaryCrossEntropyLoss` statement, so the module
never finishes loading and neither `SigmoidBinaryCrossEntropyLoss` nor
`SoftmaxCrossEntropyLoss` is ever bound: every use of either class fails with
a name-resolution error before any loss object can be constructed. -/
theorem loadLossModule_nameError :
    loadLossModule = .error "NameError: name Loss is not defined" ∧
    ∀ env, loadLossModule ≠ .ok env := by
  refine ⟨rfl, ?_⟩
  intro env h
  rw [show loadLossModule = .error "NameError: name Loss is not defined" from rfl] at h
  cases h

/-- C7: `_batchify` on a non-empty group of plain numeric label arrays (rows
of common width `w`, first-dimension lengths `l_1..l_n`) returns one array of
shape `(n, max l_i, w)` whose entry `i` is record `i`'s rows unchanged
followed by all-`(-1)` padded rows. -/
theorem batchify_pad_spec (rs : List (List (List Int))) (w : Nat)
    (hne : rs ≠ [])
    (h0 : bufWidth rs = w)
    (hrect : ∀ l ∈ rs, ∀ row ∈ l, row.length = w) :
    batchify 1 (rs.map PyRec.raw) =
      some (.ndarr (rs.map (fun l =>
        l ++ List.replicate (padLen rs - l.length) (List.replicate w (-1))))) ∧
    (rs.map (fun l =>
        l ++ List.replicate (padLen rs - l.length) (List.replicate w (-1)))).length
      = rs.length ∧
    ∀ b ∈ rs.map (fun l =>
        l ++ List.replicate (padLen rs - l.length) (List.replicate w (-1))),
      b.length = padLen rs ∧ ∀ row ∈ b, row.length = w := by
  obtain ⟨r, rest, rfl⟩ := List.exists_cons_of_ne_nil hne
  refine ⟨?_, by simp, ?_⟩
  · have hdef : batchify 1 ((r :: rest).map PyRec.raw) =
        (do
          let arrs ← mapO recRaw (PyRec.raw r :: rest.map PyRec.raw)
          let buf ← padGroup arrs
          pure (.ndarr buf)) := rfl
    rw [hdef, show (PyRec.raw r :: rest.map PyRec.raw) = (r :: rest).map PyRec.raw from rfl,
      mapO_map recRaw PyRec.raw (fun _ => rfl) (r :: rest)]
    simp only [Option.pure_def, Option.bind_eq_bind, Option.some_bind]
    rw [padGroup_rect (r :: rest) w h0 hrect]
    rfl
  · intro b hb
    rcases List.mem_map.mp hb with ⟨l, hl, rfl⟩
    constructor
    · simp only [List.length_append, List.length_replicate]
      exact Nat.add_sub_cancel' (length_le_padLen _ l hl)
    · intro row hrow
      rcases List.mem_append.mp hrow with h | h
      · exact hrect l hl row h
      · rw [List.eq_of_mem_replicate h]
        exact List.length_replicate _ _

/-- Witness for C7 at the concrete group with lengths `[2, 5, 3]` and width 2:
the result is the `(3, 5, 2)` array padded with `-1`. -/
theorem batchify_pad_spec_witness :
    (rsC7 ≠ [] ∧ bufWidth rsC7 = 2 ∧ ∀ l ∈ rsC7, ∀ row ∈ l, row.length = 2) ∧
    batchify 1 (rsC7.map PyRec.raw) =
      some (.ndarr (rsC7.map (fun l =>
        l ++ List.replicate (padLen rsC7 - l.length) (List.replicate 2 (-1))))) := by
  refine ⟨⟨by decide, by decide, by decide⟩, ?_⟩
  exact (batchify_pad_spec rsC7 2 (by decide) (by decide) (by decide)).1

/-- C8 counterexample: three records that are 2-field tuples collate to a
Python list of the two batched fields, so `len()` of the result is 2, not the
group size 3. -/
theorem batchify_tuple_len_cex :
    batchify 2 recsTup3 = some resTup3 ∧ pyLen resTup3 ≠ recsTup3.length := by
  exact ⟨rfl, by decide⟩

/-- C8 (amended): for a non-empty group, the `_batchify` output length equals
the group size in the NDArray-stack and padding cases (head record not a
tuple); in the tuple case the output is the list of batched fields, whose
length is the common field count (`zip` truncates at the shortest tuple),
while each field-column handed to the recursive collation has length equal to
the group size. -/
theorem batchify_output_length (fuel : Nat) (data : List PyRec) (b : Batched)
    (h : batchify (fuel + 1) data = some b) :
    (isTupRec (data.headD (.tup [])) = false → pyLen b = data.length) ∧
    (∀ fss, mapO recFields data = some fss →
      pyLen b = minLen fss ∧ ∀ col ∈ zipStar fss, col.length = data.length) := by
  cases data with
  | nil =>
    rw [show batchify (fuel + 1) ([] : List PyRec) = none from rfl] at h
    cases h
  | cons r rest =>
    cases r with
    | nd a =>
      have hdef : batchify (fuel + 1) (PyRec.nd a :: rest) =
          (mapO recNd (PyRec.nd a :: rest)).map .ndarr := rfl
      rw [hdef] at h
      constructor
      · intro _
        cases hm : mapO recNd (PyRec.nd a :: rest) with
        | none => rw [hm] at h; cases h
        | some l' =>
          rw [hm, Option.map_some'] at h
          injection h with h
          rw [← h]
          exact mapO_length _ _ _ hm
      · intro fss hfss
        simp [mapO, recFields] at hfss
    | tup fs =>
      have hdef : batchify (fuel + 1) (PyRec.tup fs :: rest) =
          (do
            let fss ← mapO recFields (PyRec.tup fs :: rest)
            let bs ← mapO (batchify fuel) (zipStar fss)
            pure (Batched.pyList bs)) := rfl
      rw [hdef] at h
      constructor
      · intro hh; simp [isTupRec] at hh
      · intro fss hfss
        rw [hfss] at h
        simp only [Option.pure_def, Option.bind_eq_bind, Option.some_bind] at h
        cases hbs : mapO (batchify fuel) (zipStar fss) with
        | none => rw [hbs] at h; cases h
        | some bs =>
          rw [hbs, Option.some_bind] at h
          injection h with h
          rw [← h]
          have hlenb := mapO_length _ _ _ hbs
          have hlenf := mapO_length _ _ _ hfss
          constructor
          · simpa [pyLen, zipStar] using hlenb
          · intro col hcol
            have hcol' : ∃ j, j < minLen fss ∧ colAt fss j = col := by
              simpa [zipStar] using hcol
            rcases hcol' with ⟨j, _, rfl⟩
            simp [colAt, hlenf]
    | raw a =>
      have hdef : batchify (fuel + 1) (PyRec.raw a :: rest) =
          (do
            let arrs ← mapO recRaw (PyRec.raw a :: rest)
            let buf ← padGroup arrs
            pure (Batched.ndarr buf)) := rfl
      rw [hdef] at h
      constructor
      · intro _
        cases hm : mapO recRaw (PyRec.raw a :: rest) with
        | none => rw [hm] at h; cases h
        | some arrs =>
          rw [hm] at h
          simp only [Option.pure_def, Option.bind_eq_bind, Option.some_bind] at h
          cases hp : padGroup arrs with
          | none => rw [hp] at h; cases h
          | some buf =>
            rw [hp, Option.some_bind] at h
            injection h with h
            rw [← h]
            have hbuf : buf.length = arrs.length := by
              unfold padGroup at hp
              split at hp
              · injection hp with hp; rw [← hp]; simp
              · cases hp
            show buf.length = _
            rw [hbuf]
            exact mapO_length _ _ _ hm
      · intro fss hfss
        simp [mapO, recFields] at hfss

/-- C1: with `sparse_label=True`, a position whose label equals the
configured `ignore_label` contributes exactly 0 to the per-position loss,
before weighting and the batch-axis mean, whatever the prediction vector at
that position is. -/
theorem softmaxCE_ignore_zero (fromLogits : Bool) (ignoreLabel : Int)
    (pred : List ℝ) (label : Int) (h : label = ignoreLabel) :
    softmaxCEPos fromLogits ignoreLabel pred label = 0 := by
  simp [softmaxCEPos, h]

/-- Witness for C1: the default `ignore_label = -1` on a concrete class
vector, at a position labelled `-1`. -/
theorem softmaxCE_ignore_zero_witness :
    (-1 : Int) = -1 ∧ softmaxCEPos false (-1) [1, 2, 3] (-1) = 0 :=
  ⟨rfl, softmaxCE_ignore_zero false (-1) [1, 2, 3] (-1) rfl⟩

/-- C4: `FocalLoss` construction raises a `ValueError` if and only if
`sparse_label` is true and `num_class` is not an integer that is at least 1;
in particular with `sparse_label=False` construction succeeds for every
`num_class`, including `None`.  The check happens inside `__init__`, so the
model decides it at construction. -/
theorem focalInit_error_iff (s : Bool) (nc : Option Int) :
    (∃ m, focalInit s nc = .error m) ↔
      (s = true ∧ (nc = none ∨ ∃ n, nc = some n ∧ n < 1)) := by
  cases s with
  | false => simp [focalInit]
  | true =>
    cases nc with
    | none => simp [focalInit]
    | some n => by_cases hn : n < 1 <;> simp [focalInit, hn]

/-- C9: with `gamma = 0` the modulating factor `(1-pt)^gamma` is identically
1, so the per-element focal loss reduces to the alpha-weighted cross-entropy
`-alpha_t * log(min(p_t + eps, 1))` for every raw output, one-hot indicator,
`alpha` and `eps`, in both `from_logits` modes. -/
theorem focal_gamma_zero_ce (alpha eps : ℝ) (fromLogits : Bool) (o : Bool)
    (x : ℝ) :
    focalElem alpha 0 eps fromLogits o x =
      -(if o then alpha else 1 - alpha) *
        Real.log (min ((if o then (if fromLogits then x else sigmoidR x)
                        else 1 - (if fromLogits then x else sigmoidR x)) + eps) 1) := by
  cases o <;> cases fromLogits <;>
    simp [focalElem, Real.rpow_zero, mul_one]

/-- C5: for every probability `p` in `(0,1)` and every label `y`, the
`from_sigmoid=False` log-sum-exp form evaluated at the logit `log(p/(1-p))`
equals the epsilon-free direct form `-(y*log p + (1-y)*log(1-p))` exactly,
and the `from_sigmoid=True` branch computes that same direct form except that
both `log` arguments carry the `1e-12` floor — so the two formulations agree
up to exactly that epsilon floor. -/
theorem bce_logit_prob_equiv (p y : ℝ) (hp0 : 0 < p) (hp1 : p < 1) :
    bceFromLogits (Real.log (p / (1 - p))) y
      = -(y * Real.log p + (1 - y) * Real.log (1 - p)) ∧
    bceFromSigmoid p y
      = -(y * Real.log (p + 1e-12) + (1 - y) * Real.log (1 - p + 1e-12)) := by
  have h1p : 0 < 1 - p := by linarith
  constructor
  · set x := Real.log (p / (1 - p)) with hxdef
    have hexpx : Real.exp (-x) = (1 - p) / p := by
      rw [hxdef, ← Real.log_inv, Real.exp_log (by positivity), inv_div]
    have hfactor : Real.exp (-(max (-x) 0)) + Real.exp (-x - max (-x) 0)
        = Real.exp (-(max (-x) 0)) * (1 + Real.exp (-x)) := by
      rw [show -x - max (-x) 0 = -(max (-x) 0) + -x by ring, Real.exp_add]
      ring
    have hkey : Real.log (Real.exp (-(max (-x) 0)) + Real.exp (-x - max (-x) 0))
        = -(max (-x) 0) + Real.log (1 + Real.exp (-x)) := by
      rw [hfactor, Real.log_mul (Real.exp_ne_zero _) (by positivity), Real.log_exp]
    have hsum : (1 : ℝ) + (1 - p) / p = 1 / p := by field_simp
    have hxval : x = Real.log p - Real.log (1 - p) :=
      Real.log_div hp0.ne' h1p.ne'
    show x - x * y + max (-x) 0 +
        Real.log (Real.exp (-(max (-x) 0)) + Real.exp (-x - max (-x) 0)) = _
    rw [hkey, hexpx, hsum, one_div, Real.log_inv, hxval]
    ring
  · show -(Real.log (p + 1e-12) * y + Real.log (1 - p + 1e-12) * (1 - y)) = _
    ring

/-- Witness for C5 at `p = 1/2`, `y = 1`. -/
theorem bce_logit_prob_equiv_witness :
    ((0 : ℝ) < 1 / 2 ∧ (1 / 2 : ℝ) < 1) ∧
    (bceFromLogits (Real.log ((1 / 2) / (1 - 1 / 2))) 1
        = -(1 * Real.log (1 / 2) + (1 - 1) * Real.log (1 - 1 / 2)) ∧
      bceFromSigmoid (1 / 2) 1
        = -(1 * Real.log (1 / 2 + 1e-12) + (1 - 1) * Real.log (1 - 1 / 2 + 1e-12))) :=
  ⟨⟨by norm_num, by norm_num⟩,
    bce_logit_prob_equiv (1 / 2) 1 (by norm_num) (by norm_num)⟩

theorem smoothL1_neg (sigma r : ℝ) : smoothL1 sigma (-r) = smoothL1 sigma r := by
  simp [smoothL1, abs_neg, neg_sq]

theorem smoothL1_hasDerivAt_inv (sigma : ℝ) (hs : 0 < sigma) :
    HasDerivAt (smoothL1 sigma) 1 (1 / sigma) := by
  have hpos : (0 : ℝ) < 1 / sigma := by positivity
  have hquad : HasDerivAt (fun y : ℝ => sigma / 2 * y ^ 2) 1 (1 / sigma) := by
    have h0 := (hasDerivAt_pow 2 (1 / sigma : ℝ)).const_mul (sigma / 2)
    convert h0 using 1
    field_simp
  have hL : HasDerivWithinAt (smoothL1 sigma) 1 (Set.Iic (1 / sigma)) (1 / sigma) := by
    apply (hquad.hasDerivWithinAt (s := Set.Iic (1 / sigma))).congr_of_eventuallyEq
    · have hmem : Set.Ioi (-(1 / sigma)) ∈ nhdsWithin (1 / sigma) (Set.Iic (1 / sigma)) :=
        nhdsWithin_le_nhds (Ioi_mem_nhds (by linarith))
      filter_upwards [hmem, self_mem_nhdsWithin] with y hy1 hy2
      have hab : |y| ≤ 1 / sigma := abs_le.mpr ⟨le_of_lt hy1, hy2⟩
      show smoothL1 sigma y = sigma / 2 * y ^ 2
      unfold smoothL1
      exact if_pos hab
    · show smoothL1 sigma (1 / sigma) = sigma / 2 * (1 / sigma) ^ 2
      unfold smoothL1
      exact if_pos (le_of_eq (abs_of_pos hpos))
  have hlin : HasDerivAt (fun y : ℝ => y - 1 / (2 * sigma)) 1 (1 / sigma) := by
    simpa using (hasDerivAt_id (1 / sigma : ℝ)).sub_const (1 / (2 * sigma))
  have hR : HasDerivWithinAt (smoothL1 sigma) 1 (Set.Ici (1 / sigma)) (1 / sigma) := by
    apply (hlin.hasDerivWithinAt (s := Set.Ici (1 / sigma))).congr_of_mem
    · intro y hy
      rcases eq_or_lt_of_le (Set.mem_Ici.mp hy) with heq | hlt
      · rw [← heq]
        rw [show smoothL1 sigma (1 / sigma) = sigma / 2 * (1 / sigma) ^ 2 by
          unfold smoothL1; exact if_pos (le_of_eq (abs_of_pos hpos))]
        field_simp
        ring
      · have hya : |y| = y := abs_of_pos (lt_trans hpos hlt)
        have hnot : ¬ |y| ≤ 1 / sigma := by rw [hya]; linarith
        show smoothL1 sigma y = y - 1 / (2 * sigma)
        unfold smoothL1
        rw [if_neg hnot, hya]
    · exact Set.left_mem_Ici
  have hu := hL.union hR
  rw [Set.Iic_union_Ici] at hu
  exact hasDerivWithinAt_univ.mp hu

/-- C6: for every positive transition sharpness `sigma`, the elementwise
smooth-L1 penalty is continuous in the residual, and at every residual with
`|r| = 1/sigma` it is differentiable with derivative exactly `sigma * r`, the
derivative of the quadratic branch — derivative continuity holds exactly at
the quadratic-to-linear transition `|r| = 1/sigma`. -/
theorem smoothL1_continuous_deriv (sigma : ℝ) (hs : 0 < sigma) :
    Continuous (smoothL1 sigma) ∧
    ∀ r, |r| = 1 / sigma → HasDerivAt (smoothL1 sigma) (sigma * r) r := by
  have hpos : (0 : ℝ) < 1 / sigma := by positivity
  constructor
  · show Continuous fun r : ℝ =>
      if |r| ≤ 1 / sigma then sigma / 2 * r ^ 2 else |r| - 1 / (2 * sigma)
    refine Continuous.if_le (by continuity) (by continuity) continuous_abs
      continuous_const ?_
    intro r hr
    have hsq : r ^ 2 = (1 / sigma) ^ 2 := by rw [← sq_abs, hr]
    rw [hsq, hr]
    field_simp
    ring
  · intro r hr
    rcases (abs_eq (le_of_lt hpos)).mp hr with h | h
    · rw [h, show sigma * (1 / sigma) = 1 by field_simp]
      exact smoothL1_hasDerivAt_inv sigma hs
    · rw [h, show sigma * -(1 / sigma) = -1 by field_simp]
      have hcomp : HasDerivAt (fun y : ℝ => smoothL1 sigma (-y)) (1 * -1) (-(1 / sigma)) := by
        exact HasDerivAt.comp (-(1 / sigma))
          (by rw [show -(-(1 / sigma)) = 1 / sigma by ring]
              exact smoothL1_hasDerivAt_inv sigma hs)
          (hasDerivAt_neg' (-(1 / sigma)))
      rw [show (fun y : ℝ => smoothL1 sigma (-y)) = smoothL1 sigma from
        funext (smoothL1_neg sigma)] at hcomp
      simpa using hcomp

/-- Witness for C6 at `sigma = 1`. -/
theorem smoothL1_continuous_deriv_witness :
    (0 : ℝ) < 1 ∧
    (Continuous (smoothL1 1) ∧
      ∀ r, |r| = 1 / 1 → HasDerivAt (smoothL1 1) (1 * r) r) :=
  ⟨by norm_num, smoothL1_continuous_deriv 1 (by norm_num)⟩

/-- Witness for the amended C8 at the concrete 3-record, 2-field group. -/
theorem batchify_output_length_witness :
    batchify 2 recsTup3 = some resTup3 ∧
    ((isTupRec (recsTup3.headD (.tup [])) = false → pyLen resTup3 = recsTup3.length) ∧
     (∀ fss, mapO recFields recsTup3 = some fss →
       pyLen resTup3 = minLen fss ∧ ∀ col ∈ zipStar fss, col.length = recsTup3.length)) :=
  ⟨rfl, batchify_output_length 1 recsTup3 resTup3 rfl⟩

end ObjDet
